import Mathlib

/-!
Shallow embedding of the kagent memory retrieval engine
(claude-memory-system/claude_memory), covering:

* the data model (models/memory.py: Memory, MemoryQuery, MemoryResult);
* the Search Index (storage/vector_store.py: VectorStore);
* the Durable Store (storage/file_store.py: FileStore);
* the awaken/reconcile index-sync loop installed by
  correctly_fix_memory_manager.py (improved_awaken_method).

Python dicts are modelled as insertion-ordered association lists (assignment
replaces the value of an existing key in place, a new key is appended at the
end; deletion removes the key).  Python floats are modelled as rationals.
Embedding vectors are rational vectors; the cosine-similarity routine
(sklearn's cosine_similarity / the numpy fallback_cosine_similarity), whose
exact value is irrational in general, is passed in as an explicit function
parameter, as is the embedding provider (sentence-transformers local model /
SiliconFlow API), which may be unavailable (returns none).
-/

namespace ClaudeMemory

/-- Python dict lookup d[k] (none when the key is absent). -/
def dget {κ α : Type} [DecidableEq κ] : List (κ × α) → κ → Option α
  | [], _ => none
  | p :: t, k => if p.1 = k then some p.2 else dget t k

/-- Python dict membership test k in d. -/
def dcontains {κ α : Type} [DecidableEq κ] : List (κ × α) → κ → Bool
  | [], _ => false
  | p :: t, k => p.1 = k || dcontains t k

/-- Python dict assignment d[k] = v: replaces the value of an existing key in
place, otherwise appends the new key at the end (insertion order). -/
def dinsert {κ α : Type} [DecidableEq κ] : List (κ × α) → κ → α → List (κ × α)
  | [], k, v => [(k, v)]
  | p :: t, k, v => if p.1 = k then (k, v) :: t else p :: dinsert t k v

/-- Python dict deletion del d[k]. -/
def dremove {κ α : Type} [DecidableEq κ] (d : List (κ × α)) (k : κ) : List (κ × α) :=
  d.filter (fun p => p.1 ≠ k)

/-- Python str.lower() on the character list of a string. -/
def lowerData (s : String) : List Char := s.data.map Char.toLower

/-- Python substring containment needle in hay (empty needle matches). -/
def strIn (needle : List Char) : List Char → Bool
  | [] => needle.isEmpty
  | c :: t => needle.isPrefixOf (c :: t) || strIn needle t

/-- Helper for pyWords: cur is the (reversed) word being accumulated. -/
def wordsAux (cur : List Char) : List Char → List (List Char)
  | [] => if cur.isEmpty then [] else [cur.reverse]
  | c :: rest =>
    if c.isWhitespace then
      if cur.isEmpty then wordsAux [] rest else cur.reverse :: wordsAux [] rest
    else wordsAux (c :: cur) rest

/-- Python str.split() with no separator: maximal runs of non-whitespace. -/
def pyWords (s : List Char) : List (List Char) := wordsAux [] s

/-- Python set(s.split()): the set of words of a string. -/
def wordSet (s : List Char) : Finset (List Char) := (pyWords s).toFinset

/-- Python str.find(sub): index of the first occurrence, none when absent
(the source compares the result with ≥ 0). -/
def findSubIdx (needle : List Char) : List Char → Option ℕ
  | [] => if needle.isEmpty then some 0 else none
  | c :: t =>
    if needle.isPrefixOf (c :: t) then some 0
    else (findSubIdx needle t).map (· + 1)

/-- MemoryType (models/memory.py), in class declaration order. -/
inductive MemoryType
  | working
  | semantic
  | episodic
  | procedural
deriving DecidableEq, Fintype

/-- MemoryScope (models/memory.py): GLOBAL and PROJECT. -/
inductive MemoryScope
  | globalScope
  | projectScope
deriving DecidableEq, Fintype

/-- Memory (models/memory.py).  The content field is Python Any; every use in
the engine goes through str(memory.content), so it is modelled as the string
it serializes to.  The context dict's values are likewise used only through
str(value).  Fields not consulted by the retrieval engine (location,
relations, dependencies, success_rate, file paths) are omitted.  Timestamps
are modelled as rational epoch values. -/
structure Memory where
  id : String
  title : String
  content : String
  memory_type : MemoryType
  scope : MemoryScope
  tags : List String
  importance : ℚ
  created_at : ℚ
  last_accessed : ℚ
  access_count : ℕ
  context : List (String × String)
  embedding : Option (List ℚ)
deriving DecidableEq

/-- MemoryQuery (models/memory.py).  The optional list filters keep Python
truthiness: an empty list is falsy, so a present-but-empty filter disables
filtering (as in the source's if query.memory_types and ... checks). -/
structure MemoryQuery where
  query : String
  memory_types : Option (List MemoryType)
  scopes : Option (List MemoryScope)
  tags : Option (List String)
  max_results : ℕ
  min_relevance : ℚ
  include_context : Bool
deriving DecidableEq

/-- MemoryResult (models/memory.py). -/
structure MemoryResult where
  memory : Memory
  relevance_score : ℚ
  match_reasons : List String
  context_snippet : Option String
deriving DecidableEq

/-- Embedding vectors (numpy arrays of floats in the source). -/
abbrev Emb := List ℚ

/-- VectorStore (storage/vector_store.py) in-memory state: the two dicts
built in __init__ plus whether the local sentence-transformer model loaded
(self._model is not None), which _get_match_reasons consults. -/
structure VectorStore where
  memory_embeddings : List (String × Emb)
  memory_cache : List (String × Memory)
  model_available : Bool
deriving DecidableEq

/-- Python's min(1.0, score) on rationals, written with an explicit
decidable comparison so that the kernel can evaluate it on concrete
inputs (the Min instance on ℚ does not reduce). -/
def pymin (a b : ℚ) : ℚ := if a ≤ b then a else b

/-- VectorStore._calculate_keyword_relevance (storage/vector_store.py):
substring bonuses for title (+0.4), content (+0.3), first matching tag
(+0.2), first matching context value (+0.1), plus word-overlap bonuses
computed on the word sets, all case-insensitive, capped at 1.0. -/
def calculate_keyword_relevance (m : Memory) (q : MemoryQuery) : ℚ :=
  let query_lower := lowerData q.query
  let content_str := lowerData m.content
  let s1 : ℚ := if strIn query_lower (lowerData m.title) then 4/10 else 0
  let s2 : ℚ := if strIn query_lower content_str then 3/10 else 0
  let s3 : ℚ := if m.tags.any (fun t => strIn query_lower (lowerData t)) then 2/10 else 0
  let s4 : ℚ := if m.context.any (fun kv => strIn query_lower (lowerData kv.2)) then 1/10 else 0
  let query_words := wordSet query_lower
  let title_words := wordSet (lowerData m.title)
  let content_words := wordSet content_str
  let title_overlap : ℚ :=
    ((query_words ∩ title_words).card : ℚ) / ((max query_words.card 1 : ℕ) : ℚ)
  let content_overlap : ℚ :=
    ((query_words ∩ content_words).card : ℚ) / ((max query_words.card 1 : ℕ) : ℚ)
  pymin 1 (s1 + s2 + s3 + s4 + title_overlap * (1/10) + content_overlap * (5/100))

/-- The semantic contribution inside VectorStore._calculate_relevance: the
cosine similarity × 0.7, contributed only when a query embedding was
produced and the memory has a cached embedding, else 0. -/
def semantic_term (cosine : Emb → Emb → ℚ) (vs : VectorStore) (m : Memory)
    (query_embedding : Option Emb) : ℚ :=
  match query_embedding, dget vs.memory_embeddings m.id with
  | some qe, some me => cosine qe me * (7/10)
  | _, _ => 0

/-- VectorStore._calculate_relevance (storage/vector_store.py): semantic
term plus keyword score × 0.3 plus the importance bonus
(importance / 10 × 0.1); the total is clamped from above by
min(1.0, score) — there is no clamp from below. -/
def calculate_relevance (cosine : Emb → Emb → ℚ) (vs : VectorStore) (m : Memory)
    (q : MemoryQuery) (query_embedding : Option Emb) : ℚ :=
  pymin 1 (semantic_term cosine vs m query_embedding +
    calculate_keyword_relevance m q * (3/10) + (m.importance / 10) * (1/10))

/-- VectorStore._get_match_reasons (storage/vector_store.py). -/
def get_match_reasons (vs : VectorStore) (m : Memory) (q : MemoryQuery) : List String :=
  let query_lower := lowerData q.query
  (if strIn query_lower (lowerData m.title) then ["Title match"] else []) ++
  (if strIn query_lower (lowerData m.content) then ["Content match"] else []) ++
  (match m.tags.find? (fun t => strIn query_lower (lowerData t)) with
    | some t => ["Tag match: " ++ t]
    | none => []) ++
  (if (7 : ℚ) < m.importance then ["High importance"] else []) ++
  (if vs.model_available && dcontains vs.memory_embeddings m.id then ["Semantic similarity"] else [])

/-- VectorStore._get_context_snippet (storage/vector_store.py): a window of
50 characters around the first case-insensitive occurrence of the query in
the content, with ellipses at truncated boundaries; otherwise the first 100
characters.  Natural subtraction pos - 50 is Python's max(0, pos - 50). -/
def get_context_snippet (m : Memory) (q : MemoryQuery) : Option String :=
  if !q.include_context then none
  else
    let content_str := m.content.data
    match findSubIdx (lowerData q.query) (content_str.map Char.toLower) with
    | some pos =>
      let start := pos - 50
      let stop := min content_str.length (pos + q.query.data.length + 50)
      let snippet := String.mk ((content_str.drop start).take (stop - start))
      let snippet := if 0 < start then "..." ++ snippet else snippet
      some (if stop < content_str.length then snippet ++ "..." else snippet)
    | none =>
      if 100 < content_str.length then some (String.mk (content_str.take 100) ++ "...")
      else some (String.mk content_str)

/-- VectorStore.store_memory (storage/vector_store.py): caches the memory
under its id, then stores its embedding when _generate_embedding produced
one (embed returns none when both the local model and the API are
unavailable; that failure is logged, the memory stays cached). -/
def VectorStore.store_memory (embed : Memory → Option Emb) (vs : VectorStore)
    (m : Memory) : VectorStore :=
  let vs1 : VectorStore := { vs with memory_cache := dinsert vs.memory_cache m.id m }
  match embed m with
  | some e => { vs1 with memory_embeddings := dinsert vs1.memory_embeddings m.id e }
  | none => vs1

/-- The category/scope/tag filters of VectorStore.search_memories.  A filter
list that is absent or empty (Python falsiness of if query.memory_types and
...) does not restrict; the tag filter is OR-matched. -/
def passes_filters (m : Memory) (q : MemoryQuery) : Bool :=
  (match q.memory_types with
    | some ts => ts.isEmpty || ts.contains m.memory_type
    | none => true) &&
  (match q.scopes with
    | some ss => ss.isEmpty || ss.contains m.scope
    | none => true) &&
  (match q.tags with
    | some ts => ts.isEmpty || ts.any (fun t => m.tags.contains t)
    | none => true)

/-- One step of the stable descending insertion: r is placed after every
element whose relevance_score is at least its own and before the first
strictly smaller one. -/
def insertDesc (r : MemoryResult) : List MemoryResult → List MemoryResult
  | [] => [r]
  | x :: t => if r.relevance_score ≤ x.relevance_score then x :: insertDesc r t else r :: x :: t

/-- Python's results.sort(key=lambda r: r.relevance_score, reverse=True):
a stable sort descending by relevance_score.  Its output is the unique
permutation that is sorted descending with ties kept in original order,
computed here by stable insertion (the built-in mergeSort is extensionally
the same but is defined by well-founded recursion, which the kernel cannot
evaluate on concrete inputs). -/
def sortDesc (l : List MemoryResult) : List MemoryResult :=
  l.foldl (fun acc r => insertDesc r acc) []

/-- VectorStore.search_memories (storage/vector_store.py): an empty cache
returns []; otherwise the query embedding is computed (none when the
provider is unavailable), every cached memory whose relevance reaches
min_relevance and which passes the filters becomes a MemoryResult, the
results are sorted descending by relevance_score alone (Python's stable
list.sort with reverse=True) and truncated to max_results. -/
def VectorStore.search_memories (cosine : Emb → Emb → ℚ)
    (embedQuery : String → Option Emb) (vs : VectorStore) (q : MemoryQuery) :
    List MemoryResult :=
  if vs.memory_cache.isEmpty then []
  else
    let query_embedding := embedQuery q.query
    let results := vs.memory_cache.filterMap (fun p =>
      let m := p.2
      let relevance := calculate_relevance cosine vs m q query_embedding
      if q.min_relevance ≤ relevance ∧ passes_filters m q = true then
        some { memory := m
               relevance_score := relevance
               match_reasons := get_match_reasons vs m q
               context_snippet := get_context_snippet m q }
      else none)
    (sortDesc results).take q.max_results

/-- A persisted memory file: either a well-formed record (json.load and
Memory(**data) both succeed) or a corrupt entry on which deserialization or
validation raises. -/
inductive FileData
  | valid (m : Memory)
  | corrupt
deriving DecidableEq

/-- Path of a record file: (scope, category, identifier), as in
base_path / scope / memory_type / f"{id}.json". -/
abbrev FileKey := MemoryScope × MemoryType × String

/-- FileStore (storage/file_store.py) on-disk state: the record files.  The
per-scope _metadata/index.json lookup file is not modelled: _update_index and
_remove_from_index wrap their bodies in try/except that logs a warning, so
they never influence a result or raise.  Both storage base paths are taken
to exist (the constructor's _setup_directory_structure creates them). -/
structure FileStore where
  files : List (FileKey × FileData)
deriving DecidableEq

/-- The probe order of FileStore.load_memory / delete_memory /
load_all_memories: the outer loop is for scope in [GLOBAL, PROJECT], the
inner loop for memory_type in MemoryType in declaration order. -/
def probeOrder : List (MemoryScope × MemoryType) :=
  [(.globalScope, .working), (.globalScope, .semantic),
   (.globalScope, .episodic), (.globalScope, .procedural),
   (.projectScope, .working), (.projectScope, .semantic),
   (.projectScope, .episodic), (.projectScope, .procedural)]

/-- Existence/content of the record file at scope/type/id. -/
def FileStore.fileAt (fs : FileStore) (s : MemoryScope) (t : MemoryType)
    (id : String) : Option FileData :=
  dget fs.files (s, t, id)

/-- The shared probe loop of load_memory and delete_memory: the first
(scope, type) in probe order whose memory_file.exists(). -/
def FileStore.probe (fs : FileStore) (id : String) :
    Option (MemoryScope × MemoryType × FileData) :=
  probeOrder.findSome? (fun st => (fs.fileAt st.1 st.2 id).map (fun d => (st.1, st.2, d)))

/-- FileStore.load_memory (storage/file_store.py): probes both scopes and
all categories in order and parses the first existing file; a parse failure
raises inside the try, is caught, and the whole call returns None. -/
def FileStore.load_memory (fs : FileStore) (id : String) : Option Memory :=
  match fs.probe id with
  | some (_, _, .valid m) => some m
  | some (_, _, .corrupt) => none
  | none => none

/-- FileStore.delete_memory (storage/file_store.py): unlinks the first
existing file in probe order and returns True; False when no file exists. -/
def FileStore.delete_memory (fs : FileStore) (id : String) : FileStore × Bool :=
  match fs.probe id with
  | some (s, t, _) => (⟨dremove fs.files (s, t, id)⟩, true)
  | none => (fs, false)

/-- Exceptions raised below FileStore.store_memory.  The repository defines
no exception classes of its own; persistenceError is included only so that
the spec's claimed distinct PersistenceError is expressible — no code
constructs it. -/
inductive PyExc
  | osError (msg : String)
  | persistenceError
deriving DecidableEq

/-- FileStore.store_memory (storage/file_store.py): writes the record file
keyed by (scope, category, id), overwriting an existing one.  writeErr
injects a failure of the open/json.dump call; the except clause logs and
re-raises the caught exception unchanged (bare raise).  A following
_update_index failure (indexErr) is swallowed by that helper's own
try/except, so a successful write returns normally regardless. -/
def FileStore.store_memory (fs : FileStore) (m : Memory)
    (writeErr : Option PyExc) (indexErr : Option PyExc) : Except PyExc FileStore :=
  match writeErr with
  | some e => .error e
  | none =>
    let fs1 : FileStore := ⟨dinsert fs.files (m.scope, m.memory_type, m.id) (.valid m)⟩
    match indexErr with
    | some _ => .ok fs1
    | none => .ok fs1

/-- Result of attempting json.load + Memory(**data) on one file. -/
def parseMemoryFile : FileData → Except String Memory
  | .valid m => .ok m
  | .corrupt => .error "Failed to load memory"

/-- The files in one scope/type directory, in directory order. -/
def FileStore.filesIn (fs : FileStore) (s : MemoryScope) (t : MemoryType) :
    List (String × FileData) :=
  fs.files.filterMap (fun p =>
    if p.1.1 = s ∧ p.1.2.1 = t then some (p.1.2.2, p.2) else none)

/-- FileStore.load_all_memories (storage/file_store.py): enumerates every
scope/type directory in probe order; each file that fails to parse is logged
with a warning and skipped (the inner try/except continues the loop), every
well-formed record is collected. -/
def FileStore.load_all_memories (fs : FileStore) : List Memory :=
  (probeOrder.map (fun st =>
    (fs.filesIn st.1 st.2).filterMap (fun fd =>
      match parseMemoryFile fd.2 with
      | .ok m => some m
      | .error _ => none))).flatten

/-- Modelled from the spec: the Retrieval Engine (core/memory_manager.py) is
not among the sources, only its replacement awaken method (in
correctly_fix_memory_manager.py), its tests and its callers are.  Spec §4.2
gives the Search Index operation remove(identifier), which evicts the cached
entry; it drops both the cached record and its cached embedding. -/
def VectorStore.remove (vs : VectorStore) (id : String) : VectorStore :=
  { vs with
    memory_cache := dremove vs.memory_cache id
    memory_embeddings := dremove vs.memory_embeddings id }

/-- The Retrieval Engine's state: its Search Index and its Durable Store. -/
structure Engine where
  vector_store : VectorStore
  file_store : FileStore
deriving DecidableEq

/-- Modelled from the spec: core/memory_manager.py is not among the sources.
Spec §4.3: delete(identifier) removes from Search Index first, then Durable
Store, and returns whether anything was removed (the Durable Store's
delete_memory result). -/
def Engine.delete (st : Engine) (id : String) : Engine × Bool :=
  ({ vector_store := st.vector_store.remove id
     file_store := (st.file_store.delete_memory id).1 },
   (st.file_store.delete_memory id).2)

/-- One iteration of the awaken index-sync loop: if memory.id not in
self._vector_store._memory_cache, store it and count it. -/
def awakenStepF (embed : Memory → Option Emb) (acc : VectorStore × ℕ)
    (m : Memory) : VectorStore × ℕ :=
  if dcontains acc.1.memory_cache m.id then acc
  else (VectorStore.store_memory embed acc.1 m, acc.2 + 1)

/-- The index-sync loop of the awaken method installed by
correctly_fix_memory_manager.py (improved_awaken_method): for every memory
of load_all_memories whose id is not yet in the vector store's cache,
store it and count it (synced_count). -/
def awakenSync (embed : Memory → Option Emb) (vs : VectorStore)
    (all_memories : List Memory) : VectorStore × ℕ :=
  all_memories.foldl (awakenStepF embed) (vs, 0)

/-- The reconcile step of awaken: run the sync loop over the Durable Store's
full enumeration; the file store is not written. -/
def Engine.awakenStep (embed : Memory → Option Emb) (st : Engine) : Engine × ℕ :=
  ({ st with vector_store := (awakenSync embed st.vector_store st.file_store.load_all_memories).1 },
   (awakenSync embed st.vector_store st.file_store.load_all_memories).2)

/-- The Search Index states reachable from a fresh VectorStore (__init__
builds both dicts empty) by any sequence of store_memory and search_memories
calls; search_memories reads the state and builds its result list without
mutating either dict, so its step leaves the state unchanged. -/
inductive VectorStore.Reachable : VectorStore → Prop
  | init (model_available : Bool) : VectorStore.Reachable ⟨[], [], model_available⟩
  | store {vs : VectorStore} (embed : Memory → Option Emb) (m : Memory) :
      VectorStore.Reachable vs → VectorStore.Reachable (VectorStore.store_memory embed vs m)
  | search {vs : VectorStore} (cosine : Emb → Emb → ℚ)
      (embedQuery : String → Option Emb) (q : MemoryQuery) :
      VectorStore.Reachable vs → VectorStore.Reachable vs

/-! Concrete example data used by counterexamples and witnesses. -/

/-- Two records that tie on relevance for the query of qTie: same title,
content and importance; memTie2 is more recent. -/
def memTie1 : Memory := ⟨"m1", "a", "b", .semantic, .globalScope, [], 5, 0, 0, 0, [], none⟩

def memTie2 : Memory := ⟨"m2", "a", "b", .semantic, .globalScope, [], 5, 0, 100, 0, [], none⟩

def qTie : MemoryQuery := ⟨"a", none, none, none, 5, 0, false⟩

/-- memTie1 was inserted into the index cache before memTie2. -/
def vsTie : VectorStore := ⟨[], [("m1", memTie1), ("m2", memTie2)], false⟩

/-- Records for the delete-visibility witness. -/
def memA : Memory := ⟨"a", "a", "", .semantic, .globalScope, [], 5, 0, 0, 0, [], none⟩

def memB : Memory := ⟨"b", "b", "", .semantic, .globalScope, [], 5, 0, 0, 0, [], none⟩

def qC : MemoryQuery := ⟨"b", none, none, none, 5, 0, false⟩

/-- An engine holding memA and memB in its index and memA durably. -/
def egC : Engine :=
  ⟨⟨[], [("a", memA), ("b", memB)], false⟩,
   ⟨[((.globalScope, .semantic, "a"), .valid memA)]⟩⟩

/-- A durable store with one well-formed record and one corrupt file. -/
def fs8 : FileStore :=
  ⟨[((.globalScope, .semantic, "a"), .valid memA),
    ((.projectScope, .working, "c"), .corrupt)]⟩

/-- The same identifier persisted in both scopes. -/
def mem9g : Memory := ⟨"d", "global copy", "", .semantic, .globalScope, [], 5, 0, 0, 0, [], none⟩

def mem9p : Memory := ⟨"d", "project copy", "", .episodic, .projectScope, [], 5, 0, 0, 0, [], none⟩

def fs9 : FileStore :=
  ⟨[((.globalScope, .semantic, "d"), .valid mem9g),
    ((.projectScope, .episodic, "d"), .valid mem9p)]⟩

/-- Absolute value on ℚ written with an explicit decidable comparison so
the kernel can evaluate it. -/
def rabs (x : ℚ) : ℚ := if x < 0 then -x else x

/-- fallback_cosine_similarity (storage/vector_store.py) restricted to
one-dimensional vectors, where the norms are the exact rationals rabs x and
rabs y: dot/(‖a‖‖b‖), 0 when either norm is 0. -/
def fallback_cosine_similarity1 (x y : ℚ) : ℚ :=
  if x = 0 ∨ y = 0 then 0 else (x * y) / (rabs x * rabs y)

/-- Cosine similarity on one-dimensional embedding vectors. -/
def cosine1 : Emb → Emb → ℚ
  | [x], [y] => fallback_cosine_similarity1 x y
  | _, _ => 0

/-- A memory with no lexical overlap with qNeg and importance 0. -/
def memNeg : Memory :=
  ⟨"m", "b", "b", .semantic, .globalScope, [], 0, 0, 0, 0, [], none⟩

def qNeg : MemoryQuery := ⟨"zzz", none, none, none, 5, 0, false⟩

/-- A vector store whose cached embedding for memNeg is [-1]; the query
embedding [1] then has cosine similarity exactly -1. -/
def vsNeg : VectorStore := ⟨[("m", [-1])], [("m", memNeg)], false⟩

/-- The lexical score exactly as the spec sentence states it: the
token-overlap bonuses divide by the query word count itself (shared words /
query word count), rather than the code's max(len(query_words), 1); in ℚ
division by zero is zero. -/
def keyword_relevance_spec (m : Memory) (q : MemoryQuery) : ℚ :=
  let query_lower := lowerData q.query
  let content_str := lowerData m.content
  let s1 : ℚ := if strIn query_lower (lowerData m.title) then 4/10 else 0
  let s2 : ℚ := if strIn query_lower content_str then 3/10 else 0
  let s3 : ℚ := if m.tags.any (fun t => strIn query_lower (lowerData t)) then 2/10 else 0
  let s4 : ℚ := if m.context.any (fun kv => strIn query_lower (lowerData kv.2)) then 1/10 else 0
  let query_words := wordSet query_lower
  let title_words := wordSet (lowerData m.title)
  let content_words := wordSet content_str
  let title_overlap : ℚ :=
    ((query_words ∩ title_words).card : ℚ) / (query_words.card : ℚ)
  let content_overlap : ℚ :=
    ((query_words ∩ content_words).card : ℚ) / (query_words.card : ℚ)
  pymin 1 (s1 + s2 + s3 + s4 + title_overlap * (1/10) + content_overlap * (5/100))

/-- A record whose title is exactly the query. -/
def mW1 : Memory := ⟨"w1", "alpha", "", .semantic, .globalScope, [], 5, 0, 0, 0, [], none⟩

/-- An unrelated record of the same importance. -/
def mW2 : Memory := ⟨"w2", "beta", "gamma", .episodic, .projectScope, [], 5, 0, 0, 0, [], none⟩

def qW : MemoryQuery := ⟨"alpha", none, none, none, 5, 0, false⟩

/-! Helper lemmas about the dict model. -/

theorem dget_dinsert_self {κ α : Type} [DecidableEq κ] (d : List (κ × α)) (k : κ) (v : α) :
    dget (dinsert d k v) k = some v := by
  induction d with
  | nil => simp [dinsert, dget]
  | cons p t ih =>
    by_cases h : p.1 = k
    · simp [dinsert, h, dget]
    · simp [dinsert, h, dget, ih]

theorem dcontains_iff {κ α : Type} [DecidableEq κ] (d : List (κ × α)) (k : κ) :
    dcontains d k = true ↔ ∃ v, (k, v) ∈ d := by
  induction d with
  | nil => simp [dcontains]
  | cons p t ih =>
    constructor
    · intro h
      rcases Bool.or_eq_true_iff.mp h with h1 | h1
      · have hp : p = (k, p.2) := by
          rw [Prod.ext_iff]
          exact ⟨of_decide_eq_true h1, rfl⟩
        exact ⟨p.2, by rw [← hp]; exact List.mem_cons_self p t⟩
      · rcases ih.mp h1 with ⟨v, hv⟩
        exact ⟨v, List.mem_cons_of_mem _ hv⟩
    · rintro ⟨v, hv⟩
      rcases List.mem_cons.mp hv with h1 | h1
      · have hk : p.1 = k := by rw [← h1]
        simp [dcontains, hk]
      · simp [dcontains, ih.mpr ⟨v, h1⟩]

theorem dcontains_dinsert_iff {κ α : Type} [DecidableEq κ] (d : List (κ × α))
    (k k' : κ) (v : α) :
    dcontains (dinsert d k v) k' = true ↔ (k' = k ∨ dcontains d k' = true) := by
  induction d with
  | nil => simp [dinsert, dcontains, eq_comm]
  | cons p t ih =>
    by_cases h : p.1 = k
    · have h1 : dinsert (p :: t) k v = (k, v) :: t := by rw [dinsert, if_pos h]
      rw [h1]
      have h2 : dcontains ((k, v) :: t) k' = (decide (k = k') || dcontains t k') := rfl
      have h3 : dcontains (p :: t) k' = (decide (p.1 = k') || dcontains t k') := rfl
      rw [h2, h3, Bool.or_eq_true_iff, Bool.or_eq_true_iff]
      subst h
      constructor
      · rintro (h4 | h4)
        · exact Or.inr (Or.inl h4)
        · exact Or.inr (Or.inr h4)
      · rintro (h4 | h4)
        · exact Or.inl (decide_eq_true h4.symm)
        · rcases h4 with h5 | h5
          · exact Or.inl h5
          · exact Or.inr h5
    · have h1 : dinsert (p :: t) k v = p :: dinsert t k v := by rw [dinsert, if_neg h]
      rw [h1]
      have h2 : dcontains (p :: dinsert t k v) k' =
          (decide (p.1 = k') || dcontains (dinsert t k v) k') := rfl
      have h3 : dcontains (p :: t) k' = (decide (p.1 = k') || dcontains t k') := rfl
      rw [h2, h3, Bool.or_eq_true_iff, Bool.or_eq_true_iff, ih]
      tauto

theorem dcontains_dinsert_self {κ α : Type} [DecidableEq κ] (d : List (κ × α))
    (k : κ) (v : α) : dcontains (dinsert d k v) k = true :=
  (dcontains_dinsert_iff d k k v).mpr (Or.inl rfl)

theorem dcontains_dinsert_of {κ α : Type} [DecidableEq κ] (d : List (κ × α))
    (k k' : κ) (v : α) (h : dcontains d k' = true) :
    dcontains (dinsert d k v) k' = true :=
  (dcontains_dinsert_iff d k k' v).mpr (Or.inr h)

theorem dget_dremove_self {κ α : Type} [DecidableEq κ] (d : List (κ × α)) (k : κ) :
    dget (dremove d k) k = none := by
  induction d with
  | nil => simp [dremove, dget]
  | cons p t ih =>
    by_cases h : p.1 = k
    · have h1 : dremove (p :: t) k = dremove t k := by
        simp [dremove, List.filter_cons, h]
      rw [h1, ih]
    · have h1 : dremove (p :: t) k = p :: dremove t k := by
        simp [dremove, List.filter_cons, h]
      have hd : dget (p :: dremove t k) k =
          if p.1 = k then some p.2 else dget (dremove t k) k := rfl
      rw [h1, hd, if_neg h, ih]

theorem dget_dremove_ne {κ α : Type} [DecidableEq κ] (d : List (κ × α)) (k k' : κ)
    (h : k' ≠ k) : dget (dremove d k) k' = dget d k' := by
  induction d with
  | nil => simp [dremove, dget]
  | cons p t ih =>
    have hd : dget (p :: t) k' = if p.1 = k' then some p.2 else dget t k' := rfl
    by_cases hp : p.1 = k
    · have hpk' : ¬ p.1 = k' := by rw [hp]; exact fun hh => h hh.symm
      have h1 : dremove (p :: t) k = dremove t k := by
        simp [dremove, List.filter_cons, hp]
      rw [h1, ih, hd, if_neg hpk']
    · have h1 : dremove (p :: t) k = p :: dremove t k := by
        simp [dremove, List.filter_cons, hp]
      have hd2 : dget (p :: dremove t k) k' =
          if p.1 = k' then some p.2 else dget (dremove t k) k' := rfl
      by_cases hp' : p.1 = k'
      · rw [h1, hd2, if_pos hp', hd, if_pos hp']
      · rw [h1, hd2, if_neg hp', ih, hd, if_neg hp']

theorem mem_dremove {κ α : Type} [DecidableEq κ] (d : List (κ × α)) (k : κ)
    (p : κ × α) (h : p ∈ dremove d k) : p ∈ d ∧ p.1 ≠ k := by
  have := List.mem_filter.mp h
  exact ⟨this.1, of_decide_eq_true this.2⟩

/-! Helper lemmas about the stable descending sort. -/

theorem mem_insertDesc (r x : MemoryResult) (l : List MemoryResult) :
    x ∈ insertDesc r l ↔ x = r ∨ x ∈ l := by
  induction l with
  | nil => simp [insertDesc]
  | cons y t ih =>
    by_cases h : r.relevance_score ≤ y.relevance_score
    · simp only [insertDesc, if_pos h, List.mem_cons, ih]
      tauto
    · simp only [insertDesc, if_neg h, List.mem_cons]

theorem pairwise_insertDesc (r : MemoryResult) (l : List MemoryResult)
    (h : l.Pairwise (fun a b => b.relevance_score ≤ a.relevance_score)) :
    (insertDesc r l).Pairwise (fun a b => b.relevance_score ≤ a.relevance_score) := by
  induction l with
  | nil => simp [insertDesc]
  | cons y t ih =>
    rcases List.pairwise_cons.mp h with ⟨hy, ht⟩
    by_cases hc : r.relevance_score ≤ y.relevance_score
    · rw [insertDesc, if_pos hc]
      refine List.pairwise_cons.mpr ⟨?_, ih ht⟩
      intro z hz
      rcases (mem_insertDesc r z t).mp hz with h1 | h1
      · subst h1; exact hc
      · exact hy z h1
    · rw [insertDesc, if_neg hc]
      refine List.pairwise_cons.mpr ⟨?_, h⟩
      intro z hz
      rcases List.mem_cons.mp hz with h1 | h1
      · subst h1; exact le_of_lt (lt_of_not_le hc)
      · exact le_trans (hy z h1) (le_of_lt (lt_of_not_le hc))

theorem pairwise_sortDesc (l : List MemoryResult) :
    (sortDesc l).Pairwise (fun a b => b.relevance_score ≤ a.relevance_score) := by
  unfold sortDesc
  suffices h : ∀ acc : List MemoryResult,
      acc.Pairwise (fun a b => b.relevance_score ≤ a.relevance_score) →
      (l.foldl (fun acc r => insertDesc r acc) acc).Pairwise
        (fun a b => b.relevance_score ≤ a.relevance_score) by
    exact h [] (by simp)
  induction l with
  | nil => intro acc hacc; simpa using hacc
  | cons r t ih =>
    intro acc hacc
    exact ih _ (pairwise_insertDesc r acc hacc)

theorem mem_foldl_insertDesc (x : MemoryResult) (l : List MemoryResult) :
    ∀ acc : List MemoryResult,
      x ∈ l.foldl (fun acc r => insertDesc r acc) acc → x ∈ acc ∨ x ∈ l := by
  induction l with
  | nil => intro acc hacc; exact Or.inl hacc
  | cons r t ih =>
    intro acc hacc
    rcases ih (insertDesc r acc) hacc with h1 | h1
    · rcases (mem_insertDesc r x acc).mp h1 with h2 | h2
      · exact Or.inr (by simp [h2])
      · exact Or.inl h2
    · exact Or.inr (List.mem_cons_of_mem _ h1)

theorem mem_sortDesc (l : List MemoryResult) (x : MemoryResult)
    (h : x ∈ sortDesc l) : x ∈ l := by
  unfold sortDesc at h
  rcases mem_foldl_insertDesc x l [] h with h1 | h1
  · simp at h1
  · exact h1

/-! Scoring bounds. -/

theorem pymin_eq_min (a b : ℚ) : pymin a b = min a b := by
  rw [pymin, min_def]

theorem keyword_relevance_nonneg (m : Memory) (q : MemoryQuery) :
    0 ≤ calculate_keyword_relevance m q := by
  simp only [calculate_keyword_relevance, pymin_eq_min]
  refine le_min (by norm_num) ?_
  split_ifs <;> positivity

theorem keyword_relevance_le_one (m : Memory) (q : MemoryQuery) :
    calculate_keyword_relevance m q ≤ 1 := by
  simp only [calculate_keyword_relevance, pymin_eq_min]
  exact min_le_left _ _

theorem keyword_relevance_ge_title (m : Memory) (q : MemoryQuery)
    (h : strIn (lowerData q.query) (lowerData m.title) = true) :
    4/10 ≤ calculate_keyword_relevance m q := by
  have hd1 : (0:ℚ) ≤
      ((wordSet (lowerData q.query) ∩ wordSet (lowerData m.title)).card : ℚ) /
        ((max (wordSet (lowerData q.query)).card 1 : ℕ) : ℚ) * (1/10) := by positivity
  have hd2 : (0:ℚ) ≤
      ((wordSet (lowerData q.query) ∩ wordSet (lowerData m.content)).card : ℚ) /
        ((max (wordSet (lowerData q.query)).card 1 : ℕ) : ℚ) * (5/100) := by positivity
  simp only [calculate_keyword_relevance, h, if_true, pymin_eq_min]
  refine le_min (by norm_num) ?_
  split_ifs <;> linarith

theorem semantic_term_none (cosine : Emb → Emb → ℚ) (vs : VectorStore) (m : Memory) :
    semantic_term cosine vs m none = 0 := rfl

theorem semantic_term_bounds (cosine : Emb → Emb → ℚ)
    (hcos : ∀ a b : Emb, -1 ≤ cosine a b ∧ cosine a b ≤ 1)
    (vs : VectorStore) (m : Memory) (qe : Option Emb) :
    -(7/10) ≤ semantic_term cosine vs m qe ∧ semantic_term cosine vs m qe ≤ 7/10 := by
  rcases qe with _ | a <;>
    rcases hd : dget vs.memory_embeddings m.id with _ | b <;>
      simp only [semantic_term, hd]
  · constructor <;> norm_num
  · constructor <;> norm_num
  · constructor <;> norm_num
  · rcases hcos a b with ⟨hl, hu⟩
    constructor <;> nlinarith

/-- C2 (amended): with cosine similarity in [-1, 1] (Cauchy–Schwarz) and
importance in its validated range [0, 10], _calculate_relevance lies in
[-0.7, 1]: it is clamped from above by min(1.0, score), and the keyword and
importance terms are nonnegative, but nothing clamps the negative range a
negative cosine similarity reaches. -/
theorem relevance_score_bounds (cosine : Emb → Emb → ℚ)
    (hcos : ∀ a b : Emb, -1 ≤ cosine a b ∧ cosine a b ≤ 1)
    (vs : VectorStore) (m : Memory) (q : MemoryQuery) (qe : Option Emb)
    (h0 : 0 ≤ m.importance) (_h10 : m.importance ≤ 10) :
    -(7/10) ≤ calculate_relevance cosine vs m q qe ∧
      calculate_relevance cosine vs m q qe ≤ 1 := by
  have hsem := semantic_term_bounds cosine hcos vs m qe
  have hk0 := keyword_relevance_nonneg m q
  unfold calculate_relevance
  rw [pymin_eq_min]
  constructor
  · refine le_min (by norm_num) ?_
    have hb : 0 ≤ (m.importance / 10) * (1/10) := by linarith
    have hkw : 0 ≤ calculate_keyword_relevance m q * (3/10) := by linarith
    linarith [hsem.1]
  · exact min_le_left _ _

/-- C2 (counterexample): the relevance score is not clamped to [0, 1] —
with query embedding [1], cached embedding [-1] (cosine similarity -1), no
lexical match and importance 0, _calculate_relevance returns -0.7 < 0. -/
theorem relevance_below_zero_example :
    calculate_relevance cosine1 vsNeg memNeg qNeg (some [1]) = -(7/10) ∧
      calculate_relevance cosine1 vsNeg memNeg qNeg (some [1]) < 0 := by
  have hsem : semantic_term cosine1 vsNeg memNeg (some [1]) = -(7/10) := by
    have hd : dget vsNeg.memory_embeddings memNeg.id = some [-1] := by decide
    simp only [semantic_term, hd]
    norm_num [cosine1, fallback_cosine_similarity1, rabs]
  have hkw : calculate_keyword_relevance memNeg qNeg = 0 := by
    have e1 : strIn (lowerData qNeg.query) (lowerData memNeg.title) = false := by decide
    have e2 : strIn (lowerData qNeg.query) (lowerData memNeg.content) = false := by decide
    have e3 : memNeg.tags.any (fun t => strIn (lowerData qNeg.query) (lowerData t)) = false := by
      decide
    have e4 : memNeg.context.any
        (fun kv => strIn (lowerData qNeg.query) (lowerData kv.2)) = false := by decide
    have e5 : wordSet (lowerData qNeg.query) ∩ wordSet (lowerData memNeg.title) = ∅ := by decide
    have e6 : wordSet (lowerData qNeg.query) ∩ wordSet (lowerData memNeg.content) = ∅ := by decide
    simp only [calculate_keyword_relevance, e1, e2, e3, e4, e5, e6]
    norm_num [pymin]
  have himp : memNeg.importance = 0 := rfl
  unfold calculate_relevance
  rw [hsem, hkw, himp]
  norm_num [pymin]

/-- C2 (witness): the amended bounds applied at a concrete cosine function,
store, memory and query. -/
theorem relevance_score_bounds_witness :
    -(7/10) ≤ calculate_relevance (fun _ _ => 0) vsNeg memNeg qNeg none ∧
      calculate_relevance (fun _ _ => 0) vsNeg memNeg qNeg none ≤ 1 :=
  relevance_score_bounds (fun _ _ => 0)
    (fun _ _ => ⟨by norm_num, by norm_num⟩) vsNeg memNeg qNeg none
    (by decide) (by decide)

/-- C4: for every memory and query, the keyword score of
_calculate_keyword_relevance equals the spec's formula — substring bonuses
0.4/0.3/0.2/0.1 (tag and context counted once), word-overlap bonuses ×0.1
and ×0.05 over the query word count, case-insensitive, capped at 1.0 before
the 0.3 weighting: the max(·, 1) guard only matters when the query has no
words, where the overlap numerators are 0 as well. -/
theorem keyword_relevance_matches_spec (m : Memory) (q : MemoryQuery) :
    keyword_relevance_spec m q = calculate_keyword_relevance m q := by
  simp only [keyword_relevance_spec, calculate_keyword_relevance]
  rcases Nat.eq_zero_or_pos (wordSet (lowerData q.query)).card with h | h
  · have he : wordSet (lowerData q.query) = ∅ := Finset.card_eq_zero.mp h
    simp [he]
  · have hmax : max (wordSet (lowerData q.query)).card 1 = (wordSet (lowerData q.query)).card :=
      Nat.max_eq_left h
    rw [hmax]

/-- C5: with the Embedding Provider unavailable (embed and the query
embedding both produce none), store_memory still caches the record, and in
lexical-only scoring a record whose title contains the query as a
case-insensitive substring scores strictly higher than a record with no
title/content/tag/context match and no shared words, at equal importance. -/
theorem degraded_mode (cosine : Emb → Emb → ℚ) (vsStore vsQ : VectorStore)
    (m m1 m2 : Memory) (q : MemoryQuery)
    (h1 : strIn (lowerData q.query) (lowerData m1.title) = true)
    (h2t : strIn (lowerData q.query) (lowerData m2.title) = false)
    (h2c : strIn (lowerData q.query) (lowerData m2.content) = false)
    (h2tag : m2.tags.any (fun t => strIn (lowerData q.query) (lowerData t)) = false)
    (h2ctx : m2.context.any (fun kv => strIn (lowerData q.query) (lowerData kv.2)) = false)
    (h2w1 : wordSet (lowerData q.query) ∩ wordSet (lowerData m2.title) = ∅)
    (h2w2 : wordSet (lowerData q.query) ∩ wordSet (lowerData m2.content) = ∅)
    (himp : m1.importance = m2.importance)
    (_h0 : 0 ≤ m2.importance) (h10 : m2.importance ≤ 10) :
    dget (VectorStore.store_memory (fun _ => none) vsStore m).memory_cache m.id = some m ∧
      calculate_relevance cosine vsQ m2 q none < calculate_relevance cosine vsQ m1 q none := by
  constructor
  · show dget (dinsert vsStore.memory_cache m.id m) m.id = some m
    exact dget_dinsert_self _ _ _
  · have hk1 := keyword_relevance_ge_title m1 q h1
    have hk1u := keyword_relevance_le_one m1 q
    have hk2 : calculate_keyword_relevance m2 q = 0 := by
      simp only [calculate_keyword_relevance, h2t, h2c, h2tag, h2ctx, h2w1, h2w2]
      norm_num [pymin]
    unfold calculate_relevance
    rw [semantic_term_none, semantic_term_none, hk2, himp, pymin_eq_min, pymin_eq_min]
    rw [min_eq_right (by linarith), min_eq_right (by linarith)]
    linarith

/-- C5 (witness): degraded mode at concrete data. -/
theorem degraded_mode_witness :
    dget (VectorStore.store_memory (fun _ => none)
        (⟨[], [], false⟩ : VectorStore) mW1).memory_cache mW1.id = some mW1 ∧
      calculate_relevance (fun _ _ => 0) (⟨[], [], false⟩ : VectorStore) mW2 qW none <
        calculate_relevance (fun _ _ => 0) (⟨[], [], false⟩ : VectorStore) mW1 qW none :=
  degraded_mode (fun _ _ => 0) ⟨[], [], false⟩ ⟨[], [], false⟩ mW1 mW1 mW2 qW
    (by decide) (by decide) (by decide) (by decide) (by decide)
    (by decide) (by decide) (by decide) (by decide) (by decide)

/-! Search result ordering (C3). -/

theorem kw_tie1 : calculate_keyword_relevance memTie1 qTie = 1/2 := by
  have e1 : strIn (lowerData qTie.query) (lowerData memTie1.title) = true := by decide
  have e2 : strIn (lowerData qTie.query) (lowerData memTie1.content) = false := by decide
  have e3 : memTie1.tags.any (fun t => strIn (lowerData qTie.query) (lowerData t)) = false := by
    decide
  have e4 : memTie1.context.any
      (fun kv => strIn (lowerData qTie.query) (lowerData kv.2)) = false := by decide
  have e5 : (wordSet (lowerData qTie.query) ∩ wordSet (lowerData memTie1.title)).card = 1 := by
    decide
  have e6 : (wordSet (lowerData qTie.query) ∩ wordSet (lowerData memTie1.content)).card = 0 := by
    decide
  have e7 : max (wordSet (lowerData qTie.query)).card 1 = 1 := by decide
  simp only [calculate_keyword_relevance, e1, e2, e3, e4, e5, e6, e7]
  norm_num [pymin]

theorem kw_tie2 : calculate_keyword_relevance memTie2 qTie = 1/2 := by
  have e1 : strIn (lowerData qTie.query) (lowerData memTie2.title) = true := by decide
  have e2 : strIn (lowerData qTie.query) (lowerData memTie2.content) = false := by decide
  have e3 : memTie2.tags.any (fun t => strIn (lowerData qTie.query) (lowerData t)) = false := by
    decide
  have e4 : memTie2.context.any
      (fun kv => strIn (lowerData qTie.query) (lowerData kv.2)) = false := by decide
  have e5 : (wordSet (lowerData qTie.query) ∩ wordSet (lowerData memTie2.title)).card = 1 := by
    decide
  have e6 : (wordSet (lowerData qTie.query) ∩ wordSet (lowerData memTie2.content)).card = 0 := by
    decide
  have e7 : max (wordSet (lowerData qTie.query)).card 1 = 1 := by decide
  simp only [calculate_keyword_relevance, e1, e2, e3, e4, e5, e6, e7]
  norm_num [pymin]

theorem rel_tie1 : calculate_relevance (fun _ _ => 0) vsTie memTie1 qTie none = 1/5 := by
  have h5 : memTie1.importance = 5 := rfl
  unfold calculate_relevance
  rw [semantic_term_none, kw_tie1, h5]
  norm_num [pymin]

theorem rel_tie2 : calculate_relevance (fun _ _ => 0) vsTie memTie2 qTie none = 1/5 := by
  have h5 : memTie2.importance = 5 := rfl
  unfold calculate_relevance
  rw [semantic_term_none, kw_tie2, h5]
  norm_num [pymin]

/-- C3 (counterexample): the sort has no importance/recency tie-breaking.
memTie1 and memTie2 tie at relevance 1/5 with equal importance, and memTie2
is strictly more recent; descending-recency tie-breaking would return
["m2", "m1"], but search_memories returns them in cache insertion order
["m1", "m2"] (Python stable sort on the score alone). -/
theorem search_tie_order_example :
    ((VectorStore.search_memories (fun _ _ => 0) (fun _ => none) vsTie qTie).map
      (fun r => r.memory.id)) = ["m1", "m2"] ∧
    calculate_relevance (fun _ _ => 0) vsTie memTie1 qTie none =
      calculate_relevance (fun _ _ => 0) vsTie memTie2 qTie none ∧
    memTie1.importance = memTie2.importance ∧
    memTie1.last_accessed < memTie2.last_accessed := by
  refine ⟨?_, by rw [rel_tie1, rel_tie2], rfl, by norm_num [memTie1, memTie2]⟩
  have hp1 : passes_filters memTie1 qTie = true := by decide
  have hp2 : passes_filters memTie2 qTie = true := by decide
  have hq : qTie.min_relevance = 0 := rfl
  have hm : qTie.max_results = 5 := rfl
  unfold VectorStore.search_memories
  rw [if_neg (by simp [vsTie])]
  simp only [show vsTie.memory_cache = [("m1", memTie1), ("m2", memTie2)] from rfl,
    List.filterMap_cons, List.filterMap_nil]
  simp only [rel_tie1, rel_tie2, hp1, hp2, hq, hm]
  norm_num [sortDesc, insertDesc, List.take, memTie1, memTie2]

/-- C3 (amended): the result list is sorted in descending order of
relevance_score alone — Python's stable list.sort keeps ties in index
(insertion) order, with no secondary key on importance or recency — and is
truncated to at most max_results entries. -/
theorem search_results_sorted_truncated (cosine : Emb → Emb → ℚ)
    (embedQuery : String → Option Emb) (vs : VectorStore) (q : MemoryQuery) :
    (VectorStore.search_memories cosine embedQuery vs q).Pairwise
      (fun a b => b.relevance_score ≤ a.relevance_score) ∧
    (VectorStore.search_memories cosine embedQuery vs q).length ≤ q.max_results := by
  unfold VectorStore.search_memories
  by_cases he : vs.memory_cache.isEmpty = true
  · rw [if_pos he]
    exact ⟨List.Pairwise.nil, by simp⟩
  · rw [if_neg he]
    constructor
    · exact List.Pairwise.sublist (List.take_sublist _ _) (pairwise_sortDesc _)
    · exact le_trans (le_of_eq (List.length_take _ _)) (min_le_left _ _)

/-! Reconciliation idempotence (C6). -/

theorem store_memory_cache_contains_mono (embed : Memory → Option Emb)
    (vs : VectorStore) (m : Memory) (k : String)
    (h : dcontains vs.memory_cache k = true) :
    dcontains (VectorStore.store_memory embed vs m).memory_cache k = true := by
  unfold VectorStore.store_memory
  cases hemb : embed m <;> simp only [hemb] <;>
    exact dcontains_dinsert_of _ _ _ _ h

theorem store_memory_cache_contains_self (embed : Memory → Option Emb)
    (vs : VectorStore) (m : Memory) :
    dcontains (VectorStore.store_memory embed vs m).memory_cache m.id = true := by
  unfold VectorStore.store_memory
  cases hemb : embed m <;> simp only [hemb] <;>
    exact dcontains_dinsert_self _ _ _

theorem awaken_foldl_contains_mono (embed : Memory → Option Emb) (l : List Memory) :
    ∀ (acc : VectorStore × ℕ) (k : String), dcontains acc.1.memory_cache k = true →
      dcontains (l.foldl (awakenStepF embed) acc).1.memory_cache k = true := by
  induction l with
  | nil => intro acc k h; exact h
  | cons m t ih =>
    intro acc k h
    rw [List.foldl_cons]
    apply ih
    unfold awakenStepF
    split
    · exact h
    · exact store_memory_cache_contains_mono embed acc.1 m k h

theorem awaken_foldl_all_cached (embed : Memory → Option Emb) (l : List Memory) :
    ∀ (acc : VectorStore × ℕ), ∀ m ∈ l,
      dcontains (l.foldl (awakenStepF embed) acc).1.memory_cache m.id = true := by
  induction l with
  | nil => intro acc m hm; simp at hm
  | cons m0 t ih =>
    intro acc m hm
    rw [List.foldl_cons]
    rcases List.mem_cons.mp hm with h | h
    · subst h
      apply awaken_foldl_contains_mono embed t
      unfold awakenStepF
      split
      · assumption
      · exact store_memory_cache_contains_self embed acc.1 m
    · exact ih _ m h

theorem awaken_foldl_noop (embed : Memory → Option Emb) (l : List Memory)
    (vs : VectorStore) (n : ℕ)
    (h : ∀ m ∈ l, dcontains vs.memory_cache m.id = true) :
    l.foldl (awakenStepF embed) (vs, n) = (vs, n) := by
  induction l with
  | nil => rfl
  | cons m t ih =>
    rw [List.foldl_cons]
    have h0 : dcontains (vs, n).1.memory_cache m.id = true := h m (by simp)
    rw [show awakenStepF embed (vs, n) m = (vs, n) by unfold awakenStepF; rw [if_pos h0]]
    exact ih (fun m' hm' => h m' (List.mem_cons_of_mem _ hm'))

/-- C6: the awaken index-sync loop is idempotent: with the Durable Store
unchanged, running it a second time from the state the first run produced
syncs zero records (every enumerated identifier is already in the cache)
and returns the vector store unchanged — hence every cached entry and every
relevance score is unchanged. -/
theorem reconcile_idempotent (embed : Memory → Option Emb) (st : Engine) :
    Engine.awakenStep embed (Engine.awakenStep embed st).1 =
      ((Engine.awakenStep embed st).1, 0) := by
  have hall : ∀ m ∈ st.file_store.load_all_memories,
      dcontains (awakenSync embed st.vector_store
        st.file_store.load_all_memories).1.memory_cache m.id = true := by
    intro m hm
    exact awaken_foldl_all_cached embed _ _ m hm
  have hno : awakenSync embed
      (awakenSync embed st.vector_store st.file_store.load_all_memories).1
      st.file_store.load_all_memories =
      ((awakenSync embed st.vector_store st.file_store.load_all_memories).1, 0) := by
    unfold awakenSync
    exact awaken_foldl_noop embed _ _ _ hall
  unfold Engine.awakenStep
  simp only [hno]

/-! Delete visibility (C1) and the embedding-cache invariant (C10). -/

theorem mem_search_memories (cosine : Emb → Emb → ℚ) (embedQuery : String → Option Emb)
    (vs : VectorStore) (q : MemoryQuery) (r : MemoryResult)
    (hr : r ∈ VectorStore.search_memories cosine embedQuery vs q) :
    ∃ p ∈ vs.memory_cache, r.memory = p.2 := by
  unfold VectorStore.search_memories at hr
  by_cases he : vs.memory_cache.isEmpty = true
  · rw [if_pos he] at hr
    simp at hr
  · rw [if_neg he] at hr
    have hr2 := mem_sortDesc _ _ (List.take_subset _ _ hr)
    rcases List.mem_filterMap.mp hr2 with ⟨p, hp, hpr⟩
    refine ⟨p, hp, ?_⟩
    simp only [] at hpr
    by_cases hc : q.min_relevance ≤
        calculate_relevance cosine vs p.2 q (embedQuery q.query) ∧
        passes_filters p.2 q = true
    · rw [if_pos hc] at hpr
      cases hpr
      rfl
    · rw [if_neg hc] at hpr
      simp at hpr

/-- C1: after the engine's delete (modelled from the spec: Search Index
eviction first, then Durable Store removal) returns true, no query — with
any query string, filters or threshold, and without any further reconcile —
returns a Result whose memory identifier equals the deleted id.  The
hypothesis hwf states the cache key invariant (store_memory only ever caches
a memory under its own id). -/
theorem delete_then_query_never_returns_id (st : Engine) (id : String)
    (hwf : ∀ p ∈ st.vector_store.memory_cache, p.2.id = p.1)
    (_hdel : (Engine.delete st id).2 = true)
    (cosine : Emb → Emb → ℚ) (embedQuery : String → Option Emb) (q : MemoryQuery) :
    (VectorStore.search_memories cosine embedQuery
      (Engine.delete st id).1.vector_store q).all (fun r => r.memory.id ≠ id) = true := by
  rw [List.all_eq_true]
  intro r hr
  have hvs : (Engine.delete st id).1.vector_store = st.vector_store.remove id := rfl
  rw [hvs] at hr
  rcases mem_search_memories _ _ _ _ r hr with ⟨p, hp, hpr⟩
  have hp2 : p ∈ dremove st.vector_store.memory_cache id := hp
  rcases mem_dremove _ _ _ hp2 with ⟨hpmem, hpne⟩
  have hid : r.memory.id = p.1 := by rw [hpr]; exact hwf p hpmem
  simp only [decide_eq_true_eq]
  rw [hid]
  exact hpne

/-- C1 (witness): deleting "a" from egC returns true and a subsequent query
never surfaces identifier "a". -/
theorem delete_then_query_witness :
    (VectorStore.search_memories (fun _ _ => 0) (fun _ => none)
      (Engine.delete egC "a").1.vector_store qC).all (fun r => r.memory.id ≠ "a") = true :=
  delete_then_query_never_returns_id egC "a" (by decide) (by decide)
    (fun _ _ => 0) (fun _ => none) qC

/-- C10: in every Search Index state reachable by any sequence of
store_memory and search_memories calls, every identifier with a cached
embedding also has a cached record: store_memory inserts into the record
cache before storing the embedding, and no index operation evicts a cache
entry. -/
theorem embeddings_subset_cache (vs : VectorStore) (h : VectorStore.Reachable vs) :
    ∀ k : String, dcontains vs.memory_embeddings k = true →
      dcontains vs.memory_cache k = true := by
  induction h with
  | init b =>
    intro k hk
    simp [dcontains] at hk
  | store embed m hvs ih =>
    intro k hk
    unfold VectorStore.store_memory at hk ⊢
    cases hemb : embed m
    · simp only [hemb] at hk ⊢
      exact dcontains_dinsert_of _ _ _ _ (ih k hk)
    · simp only [hemb] at hk ⊢
      rcases (dcontains_dinsert_iff _ _ _ _).mp hk with h1 | h1
      · subst h1
        exact dcontains_dinsert_self _ _ _
      · exact dcontains_dinsert_of _ _ _ _ (ih k h1)
  | search cosine embedQuery q hvs ih => exact ih

/-- C10 (witness): the invariant at a concrete reachable state: one store
on a fresh index, with an embedding provider that returns a vector. -/
theorem embeddings_subset_cache_witness :
    dcontains (VectorStore.store_memory (fun _ => some [1])
      (⟨[], [], false⟩ : VectorStore) mW1).memory_cache "w1" = true :=
  embeddings_subset_cache _
    (VectorStore.Reachable.store (fun _ => some [1]) mW1
      (VectorStore.Reachable.init false)) "w1" (by decide)

/-! Durable Store error handling and scope probing (C7, C8, C9). -/

/-- C7 (amended): a write failure in FileStore.store_memory propagates to
the caller — the except clause logs and re-raises the caught underlying
exception unchanged (bare raise); there is no distinct PersistenceError
wrapper in the code.  A successful write stores the record; an index-update
failure alone is swallowed by _update_index's own try/except and does not
fail the call. -/
theorem store_write_failure_propagates (fs : FileStore) (m : Memory)
    (e : PyExc) (ie : Option PyExc) :
    FileStore.store_memory fs m (some e) ie = Except.error e ∧
    FileStore.store_memory fs m none ie =
      Except.ok ⟨dinsert fs.files (m.scope, m.memory_type, m.id) (.valid m)⟩ := by
  refine ⟨rfl, ?_⟩
  cases ie <;> rfl

/-- C7 (counterexample): the propagated failure is the raw underlying
exception (here an OSError), not a distinct PersistenceError — the
repository defines no PersistenceError type and store_memory re-raises what
it caught. -/
theorem store_failure_raw_exception_example :
    FileStore.store_memory (⟨[]⟩ : FileStore) mW1
        (some (PyExc.osError "disk full")) none =
      Except.error (PyExc.osError "disk full") ∧
    PyExc.osError "disk full" ≠ PyExc.persistenceError :=
  ⟨rfl, by decide⟩

/-- C8: load_all_memories never propagates a deserialization failure: every
well-formed persisted record is returned (first conjunct), and everything
returned comes from a well-formed persisted file — corrupt entries are
skipped, they never abort the enumeration (second conjunct; the function is
total by construction, the inner try/except logs and continues). -/
theorem load_all_returns_wellformed (fs : FileStore) (s : MemoryScope) (t : MemoryType)
    (id : String) (m : Memory)
    (h : ((s, t, id), FileData.valid m) ∈ fs.files) :
    m ∈ fs.load_all_memories ∧
      fs.load_all_memories.all
        (fun m' => fs.files.any (fun p => p.2 = FileData.valid m')) = true := by
  constructor
  · unfold FileStore.load_all_memories
    rw [List.mem_flatten]
    refine ⟨(fs.filesIn s t).filterMap (fun fd => match parseMemoryFile fd.2 with
      | .ok m => some m
      | .error _ => none), ?_, ?_⟩
    · apply List.mem_map.mpr
      refine ⟨(s, t), ?_, rfl⟩
      cases s <;> cases t <;> simp [probeOrder]
    · apply List.mem_filterMap.mpr
      refine ⟨(id, FileData.valid m), ?_, rfl⟩
      unfold FileStore.filesIn
      apply List.mem_filterMap.mpr
      refine ⟨((s, t, id), FileData.valid m), h, ?_⟩
      rw [if_pos ⟨rfl, rfl⟩]
  · rw [List.all_eq_true]
    intro m' hm'
    unfold FileStore.load_all_memories at hm'
    rcases List.mem_flatten.mp hm' with ⟨l, hl, hml⟩
    rcases List.mem_map.mp hl with ⟨st', _hst', rfl⟩
    rcases List.mem_filterMap.mp hml with ⟨fd, hfd, hparse⟩
    unfold FileStore.filesIn at hfd
    rcases List.mem_filterMap.mp hfd with ⟨p, hp, hif⟩
    rw [List.any_eq_true]
    refine ⟨p, hp, ?_⟩
    simp only [decide_eq_true_eq]
    by_cases hc : p.1.1 = st'.1 ∧ p.1.2.1 = st'.2
    · rw [if_pos hc] at hif
      have hfd2 : fd = (p.1.2.2, p.2) := (Option.some.inj hif).symm
      rw [hfd2] at hparse
      dsimp only at hparse
      cases hd : p.2 with
      | valid mm =>
        rw [hd] at hparse
        simp [parseMemoryFile] at hparse
        rw [hparse]
      | corrupt =>
        rw [hd] at hparse
        simp [parseMemoryFile] at hparse
    · rw [if_neg hc] at hif
      simp at hif

/-- C8 (witness): fs8 holds one well-formed record and one corrupt file;
the record is returned and everything returned is well-formed. -/
theorem load_all_returns_wellformed_witness :
    memA ∈ fs8.load_all_memories ∧
      fs8.load_all_memories.all
        (fun m' => fs8.files.any (fun p => p.2 = FileData.valid m')) = true :=
  load_all_returns_wellformed fs8 .globalScope .semantic "a" memA (by decide)

/-- C9: when the same identifier is persisted in both scopes (the global
copy, well-formed, at category tg; the project copy at tp), load_memory
returns the global copy and delete_memory removes only the global file and
returns true, the project copy remaining on disk: both probe scopes in the
fixed order global-then-project across all categories and stop at the first
existing file. -/
theorem scope_probe_order (fs : FileStore) (tg tp : MemoryType) (id : String)
    (m : Memory) (dp : FileData)
    (hg : fs.fileAt .globalScope tg id = some (.valid m))
    (hgu : ∀ t : MemoryType, t ≠ tg → fs.fileAt .globalScope t id = none)
    (hp : fs.fileAt .projectScope tp id = some dp) :
    fs.load_memory id = some m ∧
    (fs.delete_memory id).2 = true ∧
    (fs.delete_memory id).1.fileAt .globalScope tg id = none ∧
    (fs.delete_memory id).1.fileAt .projectScope tp id = some dp := by
  have hprobe : fs.probe id = some (MemoryScope.globalScope, tg, FileData.valid m) := by
    rcases tg with _ | _ | _ | _
    · simp [FileStore.probe, probeOrder, List.findSome?_cons, hg]
    · simp [FileStore.probe, probeOrder, List.findSome?_cons, hg,
        hgu MemoryType.working (by decide)]
    · simp [FileStore.probe, probeOrder, List.findSome?_cons, hg,
        hgu MemoryType.working (by decide), hgu MemoryType.semantic (by decide)]
    · simp [FileStore.probe, probeOrder, List.findSome?_cons, hg,
        hgu MemoryType.working (by decide), hgu MemoryType.semantic (by decide),
        hgu MemoryType.episodic (by decide)]
  have hdel1 : (fs.delete_memory id).1 =
      ⟨dremove fs.files (MemoryScope.globalScope, tg, id)⟩ := by
    simp [FileStore.delete_memory, hprobe]
  refine ⟨?_, ?_, ?_, ?_⟩
  · simp [FileStore.load_memory, hprobe]
  · simp [FileStore.delete_memory, hprobe]
  · rw [hdel1]
    exact dget_dremove_self _ _
  · rw [hdel1]
    unfold FileStore.fileAt at hp ⊢
    rw [show (⟨dremove fs.files (MemoryScope.globalScope, tg, id)⟩ : FileStore).files =
      dremove fs.files (MemoryScope.globalScope, tg, id) from rfl]
    rw [dget_dremove_ne _ _ _ (by simp)]
    exact hp

/-- C9 (witness): fs9 persists identifier "d" in both scopes; get returns
the global copy, delete removes it and returns true while the project copy
remains. -/
theorem scope_probe_order_witness :
    fs9.load_memory "d" = some mem9g ∧
    (fs9.delete_memory "d").2 = true ∧
    (fs9.delete_memory "d").1.fileAt .globalScope .semantic "d" = none ∧
    (fs9.delete_memory "d").1.fileAt .projectScope .episodic "d" = some (.valid mem9p) :=
  scope_probe_order fs9 .semantic .episodic "d" mem9g (.valid mem9p)
    (by decide) (by decide) (by decide)

end ClaudeMemory
